import Mathlib

/-!
Verification of the collision-detection compute pipeline of the
CollisionDetection-GPU repository (`src/compute.rs`, `src/utils.rs`).

Modelling conventions:
* `f32` values are modelled two ways, matching the two concerns of the code:
  numerically as `ℚ` (exact arithmetic, for the distance test of
  `collision_test_cpu`) and, where the code moves raw memory
  (`to_raw` serialization, `bytes_to_f32` readback), as their 32-bit
  bit patterns (`ℕ` below `2^32`).  `glam::Vec3` becomes `Vec3 F` for the
  scalar model `F` in use.
* Machine integers (`u32`, bytes) are `ℕ` with explicit bounds where they
  matter; byte buffers are `List ℕ`.
* Fallible code returns `Option`; a Rust `panic!`/`expect` is modelled by the
  `ReadOutcome.panicked` constructor or by `Option.none`.
* GPU command recording (`do_compute`, `dispatch`) is modelled as the list of
  commands the encoder records.
-/

/-- `glam::Vec3` over a scalar model `F` (`ℚ` for numeric reasoning, `ℕ` for
bit patterns). -/
structure Vec3 (F : Type) where
  x : F
  y : F
  z : F
deriving DecidableEq, Repr

/-- Componentwise subtraction, `glam::Vec3`'s `Sub`. -/
def Vec3.sub {F : Type} [Sub F] (a b : Vec3 F) : Vec3 F :=
  ⟨a.x - b.x, a.y - b.y, a.z - b.z⟩

/-- Squared Euclidean norm; `glam::Vec3::length` is its square root. -/
def Vec3.lengthSq (v : Vec3 ℚ) : ℚ :=
  v.x * v.x + v.y * v.y + v.z * v.z

/-- `ComputeInstance` (src/compute.rs lines 17-23): the host particle. -/
structure ComputeInstance (F : Type) where
  id : ℕ
  position : Vec3 F
  radius : F
  velocity : Vec3 F
deriving DecidableEq, Repr

instance {F : Type} [Inhabited F] : Inhabited (ComputeInstance F) :=
  ⟨⟨0, ⟨default, default, default⟩, default, ⟨default, default, default⟩⟩⟩

/-- `ComputeInstanceRaw` (src/compute.rs lines 25-36): the `repr(C)` packed
device record.  Each field is 4-byte; the struct is 12 words (48 bytes). -/
structure ComputeInstanceRaw (F : Type) where
  id : ℕ
  radius : F
  _padding_radius : ℕ × ℕ
  position : Vec3 F
  _padding_position : ℕ
  velocity : Vec3 F
  _padding_velocity : ℕ
deriving DecidableEq, Repr

/-- Field names of `ComputeInstanceRaw`, in declaration (= memory) order. -/
def ComputeInstanceRaw.fieldNames : List String :=
  ["id", "radius", "_padding_radius", "position", "_padding_position",
   "velocity", "_padding_velocity"]

/-- Follows the spec's words (§3): the field set the spec ascribes to the
packed device record, for comparison with `ComputeInstanceRaw.fieldNames`. -/
def specPackedRecordFields : List String :=
  ["id", "radius", "cell_index", "position", "velocity"]

/-- `ComputeInstance::to_raw` (src/compute.rs lines 38-50). -/
def ComputeInstance.to_raw {F : Type} (s : ComputeInstance F) :
    ComputeInstanceRaw F :=
  { id := s.id
    position := s.position
    radius := s.radius
    velocity := s.velocity
    _padding_position := 0
    _padding_radius := (0, 0)
    _padding_velocity := 0 }

/-- The particle `i` / particle `j` overlap test of `collision_test_cpu`
(src/compute.rs lines 399-400): the Euclidean distance
`(instance_i.position - instance_j.position).length()` is strictly below
`instance_i.radius + instance_j.radius`. -/
def collides (a b : ComputeInstance ℚ) : Prop :=
  Real.sqrt (((a.position.sub b.position).lengthSq : ℚ) : ℝ) <
    ((a.radius + b.radius : ℚ) : ℝ)

/-- The square-root comparison against a rational bound is decidable through
squaring. -/
instance collidesDecidable (a b : ComputeInstance ℚ) : Decidable (collides a b) :=
  decidable_of_iff
    (0 < a.radius + b.radius ∧
      (a.position.sub b.position).lengthSq <
        (a.radius + b.radius) * (a.radius + b.radius))
    (by
      unfold collides
      constructor
      · rintro ⟨hs, hd⟩
        have hs' : (0 : ℝ) < ((a.radius + b.radius : ℚ) : ℝ) := by
          exact_mod_cast hs
        rw [Real.sqrt_lt' hs', sq]
        exact_mod_cast hd
      · intro h
        have hs' : (0 : ℝ) < ((a.radius + b.radius : ℚ) : ℝ) :=
          lt_of_le_of_lt (Real.sqrt_nonneg _) h
        have hs : 0 < a.radius + b.radius := by exact_mod_cast hs'
        refine ⟨hs, ?_⟩
        rw [Real.sqrt_lt' hs'] at h
        have : ((a.position.sub b.position).lengthSq : ℝ) <
            ((a.radius + b.radius : ℚ) : ℝ) ^ 2 := h
        rw [sq] at this
        exact_mod_cast this)

/-- `collision_test_cpu` (src/compute.rs lines 386-409): the double loop over
all ordered index pairs, skipping `i == j`, counting overlapping pairs.  The
Rust function prints the count; the count `ans` is the value modelled. -/
def collision_test_cpu (instances : List (ComputeInstance ℚ)) : ℕ :=
  (List.range instances.length).foldl (fun ans i =>
    (List.range instances.length).foldl (fun ans j =>
      if i = j then ans
      else if collides (instances.getD i default) (instances.getD j default)
        then ans + 1
      else ans) ans) 0

/-- Two particles of radius `1/2`, one at the origin and one at distance `d`
along the x axis (the configuration of spec §8's collision test). -/
def demoPair (d : ℚ) : List (ComputeInstance ℚ) :=
  [⟨0, ⟨0, 0, 0⟩, 1/2, ⟨0, 0, 0⟩⟩, ⟨1, ⟨d, 0, 0⟩, 1/2, ⟨0, 0, 0⟩⟩]

/-- The number of unordered colliding pairs: index pairs `i < j` whose
particles overlap. -/
def unordered_collision_count (instances : List (ComputeInstance ℚ)) : ℕ :=
  (((Finset.range instances.length) ×ˢ (Finset.range instances.length)).filter
    (fun p => p.1 < p.2 ∧
      collides (instances.getD p.1 default) (instances.getD p.2 default))).card

/-- `ComputeTestNode` (src/compute.rs lines 56-66), reduced to what command
recording observes: the pipeline's entry point and the buffer length. -/
structure ComputeTestNode where
  entry_point : String
  buffer_len : ℕ

/-- `ComputeTestNode::new` (src/compute.rs lines 69-271): the one compute
pipeline is created with `entry_point: "naive_collision_test"`
(src/compute.rs line 151). -/
def ComputeTestNode.new (buffer_len : ℕ) : ComputeTestNode :=
  { entry_point := "naive_collision_test", buffer_len := buffer_len }

/-- A command recorded into a compute pass. -/
inductive Command where
  | setPipeline (entry_point : String)
  | setBindGroup (index : ℕ)
  | dispatchWorkgroups (x y z : ℕ)
deriving DecidableEq, Repr

/-- Whether a command is a compute dispatch. -/
def Command.isDispatchWorkgroups : Command → Bool
  | .dispatchWorkgroups _ _ _ => true
  | _ => false

/-- The entry point a `setPipeline` command selects, if any. -/
def Command.pipelineOf : Command → Option String
  | .setPipeline e => some e
  | _ => none

/-- `ComputeTestNode::dispatch` (src/compute.rs lines 272-276): set the
pipeline, set bind group 0, dispatch `workgroup_count × 1 × 1` workgroups. -/
def ComputeTestNode.dispatch (node : ComputeTestNode) (workgroup_count : ℕ) :
    List Command :=
  [.setPipeline node.entry_point, .setBindGroup 0,
   .dispatchWorkgroups workgroup_count 1 1]

/-- `do_compute` (src/compute.rs lines 412-429): one compute pass recording a
single dispatch of `buffer_len / 64 + 1` workgroups. -/
def do_compute (node : ComputeTestNode) : List Command :=
  node.dispatch (node.buffer_len / 64 + 1)

/-- One entry of the bind group layout: its binding index and whether the
storage buffer is read-only. -/
structure BindGroupLayoutEntry where
  binding : ℕ
  read_only : Bool
deriving DecidableEq, Repr

/-- The six buffers `ComputeTestNode` owns (src/compute.rs lines 159-203). -/
inductive BufferName where
  | time_step
  | boundary
  | instances
  | output_cnt
  | output_position
  | output_velocity
deriving DecidableEq, Repr

/-- One entry of the bind group: its binding index and the bound buffer. -/
structure BindGroupEntry where
  binding : ℕ
  buffer : BufferName
deriving DecidableEq, Repr

/-- The bind group layout built in `ComputeTestNode::new`
(src/compute.rs lines 70-137): bindings 0 and 1 read-only, 2-5 read-write. -/
def bind_group_layout_entries : List BindGroupLayoutEntry :=
  [⟨0, true⟩, ⟨1, true⟩, ⟨2, false⟩, ⟨3, false⟩, ⟨4, false⟩, ⟨5, false⟩]

/-- The bind group built in `ComputeTestNode::new`
(src/compute.rs lines 205-258). -/
def bind_group_entries : List BindGroupEntry :=
  [⟨0, .time_step⟩, ⟨1, .boundary⟩, ⟨2, .instances⟩,
   ⟨3, .output_cnt⟩, ⟨4, .output_position⟩, ⟨5, .output_velocity⟩]

/-- The result of the `map_async` callback of `read_buffer_bytes`
(src/compute.rs lines 291-317). -/
inductive MapResult where
  | ok
  | error
deriving DecidableEq, Repr

/-- The observable outcome of a host-side operation that may `panic!`
(`Result::expect` in Rust). -/
inductive ReadOutcome (α : Type) where
  | ok (value : α)
  | panicked (msg : String)
deriving DecidableEq, Repr

/-- `read_buffer_bytes` (src/compute.rs lines 291-317): maps the buffer and
copies out the full contents; the `map_async` callback runs
`result.expect("failed to map storage buffer")`, so a map failure panics
rather than returning. -/
def read_buffer_bytes (contents : List ℕ) (map_result : MapResult) :
    ReadOutcome (List ℕ) :=
  match map_result with
  | .ok => .ok contents
  | .error => .panicked "failed to map storage buffer"

/-- `u32::from_ne_bytes` on the 4-byte array `try_into` produces
(src/utils.rs line 87), little-endian; `none` models the `try_into` failure
that `unwrap` would turn into a panic. -/
def u32_from_ne_bytes : List ℕ → Option ℕ
  | [b0, b1, b2, b3] => some (b0 + 256 * b1 + 65536 * b2 + 16777216 * b3)
  | _ => none

/-- `f32::from_ne_bytes` (src/utils.rs line 108): in the bit-pattern model an
`f32` is its 32-bit pattern, so the reinterpretation yields the same word. -/
def f32_from_ne_bytes (b : List ℕ) : Option ℕ :=
  u32_from_ne_bytes b

/-- The slice `bytes[i*4..i*4+4]` (`none` models the panic of a
range-index past the end). -/
def slice4 (bytes : List ℕ) (s : ℕ) : Option (List ℕ) :=
  if s + 4 ≤ bytes.length then some ((bytes.drop s).take 4) else none

/-- The `for` loop of `bytes_to_u32`/`bytes_to_f32`: each iteration may panic
(modelled by `none`), otherwise pushes its value. -/
def collect_words (f : ℕ → Option ℕ) : List ℕ → Option (List ℕ)
  | [] => some []
  | i :: rest =>
    match f i, collect_words f rest with
    | some v, some vs => some (v :: vs)
    | _, _ => none

/-- `bytes_to_u32` (src/utils.rs lines 83-92). -/
def bytes_to_u32 (bytes : List ℕ) : Option (List ℕ) :=
  collect_words (fun i => (slice4 bytes (i * 4)).bind u32_from_ne_bytes)
    (List.range (bytes.length / 4))

/-- `bytes_to_f32` (src/utils.rs lines 104-113); values are f32 bit
patterns. -/
def bytes_to_f32 (bytes : List ℕ) : Option (List ℕ) :=
  collect_words (fun i => (slice4 bytes (i * 4)).bind f32_from_ne_bytes)
    (List.range (bytes.length / 4))

/-- A `u32`'s four native-endian (little-endian) bytes, the store
counterpart of `u32_from_ne_bytes`. -/
def u32_to_ne_bytes (w : ℕ) : List ℕ :=
  [w % 256, w / 256 % 256, w / 65536 % 256, w / 16777216 % 256]

/-- The 12-word (48-byte) memory image of a `ComputeInstanceRaw` in field
order: `id`, `radius`, the two `_padding_radius` words, the three `position`
words, `_padding_position`, the three `velocity` words, `_padding_velocity`
(`repr(C)`, every field 4-byte aligned, so there is no implicit padding). -/
def ComputeInstanceRaw.words (r : ComputeInstanceRaw ℕ) : List ℕ :=
  [r.id, r.radius, r._padding_radius.1, r._padding_radius.2,
   r.position.x, r.position.y, r.position.z, r._padding_position,
   r.velocity.x, r.velocity.y, r.velocity.z, r._padding_velocity]

/-- The byte image of a word list. -/
def words_to_bytes (ws : List ℕ) : List ℕ :=
  ws.flatMap u32_to_ne_bytes

/-- The `for` loop of `read_position_buffer`/`read_velocity_buffer`
(src/compute.rs lines 344-350 and 362-368): group the readback floats four at
a time and keep the first three of each group as a `glam::Vec3`. -/
def group_vec3 (result_raw : List ℕ) : List (Vec3 ℕ) :=
  (List.range (result_raw.length / 4)).map (fun i =>
    ⟨result_raw.getD (i * 4) 0, result_raw.getD (i * 4 + 1) 0,
     result_raw.getD (i * 4 + 2) 0⟩)

/-- `read_position_buffer` (src/compute.rs lines 355-371) applied to the
mapped bytes of the output position buffer: `bytes_to_f32`, then the grouping
loop (`read_velocity_buffer`, lines 337-353, is the same code on the velocity
buffer). -/
def read_position_buffer (bytes : List ℕ) : Option (List (Vec3 ℕ)) :=
  (bytes_to_f32 bytes).map group_vec3

/-- Modelled from the spec: the collision kernel's output position buffer.
`shaders/kernel.wgsl` is not under src/; per spec §3 the kernel writes one
padded `ResultRecord` position (`vec3<f32>`, one word of padding) per
particle, and per spec §8 a run with `dt = 0` produces no motion, so the
written position equals the particle's input position bit-for-bit. -/
def device_output_position_dt0 (raws : List (ComputeInstanceRaw ℕ)) : List ℕ :=
  raws.flatMap (fun r => [r.position.x, r.position.y, r.position.z, 0])

/-- Modelled from the spec: step 5 of the per-frame round trip (§4.4) —
overwrite `ParticleStore[i].position/velocity` for every `i` in order from
the readback vectors; `id` and `radius` are untouched.  The spec guarantees
the readback holds one entry per particle (capacity ≥ N), so the `getD`
fallback is never taken on in-range data. -/
def overwrite_from_readback (instances : List (ComputeInstance ℚ))
    (positions velocities : List (Vec3 ℚ)) : List (ComputeInstance ℚ) :=
  (List.range instances.length).map (fun i =>
    let p := instances.getD i default
    { p with
      position := positions.getD i p.position
      velocity := velocities.getD i p.velocity })

/-- Modelled from the spec: the per-frame `update` round trip (§4.4) —
serialize every particle with `to_raw`, run the device work (the kernel is
not under src/, so it is a parameter producing the position and velocity
readbacks), then overwrite positions and velocities from the readback. -/
def update_round_trip
    (device : List (ComputeInstanceRaw ℚ) → List (Vec3 ℚ) × List (Vec3 ℚ))
    (instances : List (ComputeInstance ℚ)) : List (ComputeInstance ℚ) :=
  let raws := instances.map ComputeInstance.to_raw
  let readback := device raws
  overwrite_from_readback instances readback.1 readback.2

/-- Modelled from the spec: a whole run — the update round trip once per
frame, one `dt` per frame fed to the device kernel. -/
def pipeline_run
    (device : ℚ → List (ComputeInstanceRaw ℚ) → List (Vec3 ℚ) × List (Vec3 ℚ))
    (init : List (ComputeInstance ℚ)) (dts : List ℚ) :
    List (ComputeInstance ℚ) :=
  dts.foldl (fun st dt => update_round_trip (device dt) st) init

/-- The little-endian value of the first four entries of a byte list: the
total counterpart of `u32_from_ne_bytes`, used to state what the conversion
loops return. -/
def le32_value (b : List ℕ) : ℕ :=
  b.getD 0 0 + 256 * b.getD 1 0 + 65536 * b.getD 2 0 + 16777216 * b.getD 3 0

/-- All stored words of a bit-pattern particle are in `u32` range. -/
def ComputeInstance.bitsValid (p : ComputeInstance ℕ) : Prop :=
  p.id < 4294967296 ∧ p.radius < 4294967296 ∧
    p.position.x < 4294967296 ∧ p.position.y < 4294967296 ∧
    p.position.z < 4294967296 ∧ p.velocity.x < 4294967296 ∧
    p.velocity.y < 4294967296 ∧ p.velocity.z < 4294967296

instance (p : ComputeInstance ℕ) : Decidable p.bitsValid := by
  unfold ComputeInstance.bitsValid
  infer_instance

/-- The particle of spec §8's round-trip test, in the bit-pattern model:
position `(1.0, 2.0, 3.0)` (f32 bit patterns `0x3f800000`, `0x40000000`,
`0x40400000`) and zero velocity. -/
def demoBitsParticle : ComputeInstance ℕ :=
  ⟨0, ⟨1065353216, 1073741824, 1077936128⟩, 0, ⟨0, 0, 0⟩⟩

/-! ## Helper lemmas -/

/-- Unfolding of `collides` through squaring: the square-root comparison
holds exactly when the radius sum is positive and the squared distance is
below the squared radius sum. -/
lemma collides_iff_sq (a b : ComputeInstance ℚ) :
    collides a b ↔
      0 < a.radius + b.radius ∧
        (a.position.sub b.position).lengthSq <
          (a.radius + b.radius) * (a.radius + b.radius) := by
  unfold collides
  constructor
  · intro h
    have hs' : (0 : ℝ) < ((a.radius + b.radius : ℚ) : ℝ) :=
      lt_of_le_of_lt (Real.sqrt_nonneg _) h
    have hs : 0 < a.radius + b.radius := by exact_mod_cast hs'
    refine ⟨hs, ?_⟩
    rw [Real.sqrt_lt' hs', sq] at h
    exact_mod_cast h
  · rintro ⟨hs, hd⟩
    have hs' : (0 : ℝ) < ((a.radius + b.radius : ℚ) : ℝ) := by
      exact_mod_cast hs
    rw [Real.sqrt_lt' hs', sq]
    exact_mod_cast hd

/-- The overlap predicate is symmetric: distances and radius sums do not
depend on operand order. -/
lemma collides_comm (a b : ComputeInstance ℚ) : collides a b ↔ collides b a := by
  unfold collides
  have h1 : (a.position.sub b.position).lengthSq =
      (b.position.sub a.position).lengthSq := by
    simp only [Vec3.sub, Vec3.lengthSq]
    ring
  rw [h1, add_comm a.radius b.radius]

/-- Accumulating `f` over `List.range n` starting from `a` adds
`∑ k ∈ range n, f k`. -/
lemma foldl_range_add (f : ℕ → ℕ) :
    ∀ (n a : ℕ),
      (List.range n).foldl (fun acc k => acc + f k) a =
        a + ∑ k ∈ Finset.range n, f k := by
  intro n
  induction n with
  | zero => simp
  | succ m ih =>
    intro a
    rw [List.range_succ, List.foldl_append, ih, Finset.sum_range_succ]
    simp [add_assoc]

/-- The double loop of `collision_test_cpu` counts exactly the ordered index
pairs `(i, j)` with `i ≠ j` whose particles overlap. -/
lemma collision_test_cpu_eq_card (instances : List (ComputeInstance ℚ)) :
    collision_test_cpu instances =
      (((Finset.range instances.length) ×ˢ (Finset.range instances.length)).filter
        (fun p => p.1 ≠ p.2 ∧
          collides (instances.getD p.1 default)
            (instances.getD p.2 default))).card := by
  set n := instances.length with hn
  have inner : ∀ (i a : ℕ),
      (List.range n).foldl (fun ans j =>
        if i = j then ans
        else if collides (instances.getD i default) (instances.getD j default)
          then ans + 1
        else ans) a =
      a + ∑ j ∈ Finset.range n,
        (if i ≠ j ∧ collides (instances.getD i default)
            (instances.getD j default) then 1 else 0) := by
    intro i a
    rw [List.foldl_ext _ (fun ans j => ans +
      (if i ≠ j ∧ collides (instances.getD i default)
          (instances.getD j default) then 1 else 0))]
    · exact foldl_range_add _ n a
    · intro acc j _
      by_cases hij : i = j
      · subst hij
        rw [if_pos rfl, if_neg (fun h => h.1 rfl), add_zero]
      · rw [if_neg hij]
        by_cases hc : collides (instances.getD i default)
            (instances.getD j default)
        · rw [if_pos hc, if_pos ⟨hij, hc⟩]
        · rw [if_neg hc, if_neg (fun h => hc h.2), add_zero]
  unfold collision_test_cpu
  rw [← hn]
  rw [List.foldl_ext _ (fun ans i => ans + ∑ j ∈ Finset.range n,
      (if i ≠ j ∧ collides (instances.getD i default)
          (instances.getD j default) then 1 else 0))
    _ (fun a i _ => inner i a)]
  rw [foldl_range_add, Finset.card_filter, zero_add,
    ← Finset.sum_product' (Finset.range n) (Finset.range n)
      (fun i j => if i ≠ j ∧ collides (instances.getD i default)
        (instances.getD j default) then 1 else 0)]

/-- `collision_test_cpu` on a two-particle array is the sum of the two
ordered-pair overlap indicators. -/
lemma collision_test_cpu_pair (a b : ComputeInstance ℚ) :
    collision_test_cpu [a, b] =
      (if collides a b then 1 else 0) + (if collides b a then 1 else 0) := by
  simp only [collision_test_cpu, List.length_cons, List.length_nil]
  norm_num [List.range_succ, List.getD]
  split_ifs <;> simp

/-- The ordered overlapping-pair count is twice the unordered one: the swap
involution matches each `i < j` pair with its mirror image. -/
lemma ordered_count_eq_two_mul_unordered (instances : List (ComputeInstance ℚ)) :
    (((Finset.range instances.length) ×ˢ (Finset.range instances.length)).filter
      (fun p => p.1 ≠ p.2 ∧
        collides (instances.getD p.1 default)
          (instances.getD p.2 default))).card =
      2 * unordered_collision_count instances := by
  set n := instances.length
  set C : ℕ → ℕ → Prop := fun i j =>
    collides (instances.getD i default) (instances.getD j default) with hC
  have hsplit :
      ((Finset.range n ×ˢ Finset.range n).filter
        (fun p => p.1 ≠ p.2 ∧ C p.1 p.2)) =
      ((Finset.range n ×ˢ Finset.range n).filter
        (fun p => (p.1 < p.2 ∧ C p.1 p.2) ∨ (p.2 < p.1 ∧ C p.1 p.2))) := by
    apply Finset.filter_congr
    intro p _
    constructor
    · rintro ⟨hne, hc⟩
      rcases lt_or_gt_of_ne hne with h | h
      · exact Or.inl ⟨h, hc⟩
      · exact Or.inr ⟨h, hc⟩
    · rintro (⟨h, hc⟩ | ⟨h, hc⟩)
      · exact ⟨ne_of_lt h, hc⟩
      · exact ⟨(ne_of_lt h).symm, hc⟩
  rw [hsplit, Finset.filter_or,
    Finset.card_union_of_disjoint (by
      rw [Finset.disjoint_filter]
      rintro p _ ⟨h1, _⟩ ⟨h2, _⟩
      exact absurd h2 (not_lt_of_gt h1))]
  have hswap :
      ((Finset.range n ×ˢ Finset.range n).filter
        (fun p => p.2 < p.1 ∧ C p.1 p.2)).card =
      ((Finset.range n ×ˢ Finset.range n).filter
        (fun p => p.1 < p.2 ∧ C p.1 p.2)).card := by
    refine Finset.card_bij' (fun p _ => (p.2, p.1)) (fun p _ => (p.2, p.1))
      ?_ ?_ ?_ ?_
    · rintro ⟨i, j⟩ hp
      rw [Finset.mem_filter, Finset.mem_product] at hp ⊢
      obtain ⟨⟨hi, hj⟩, hlt, hc⟩ := hp
      exact ⟨⟨hj, hi⟩, hlt, ((collides_comm _ _).mp hc)⟩
    · rintro ⟨i, j⟩ hp
      rw [Finset.mem_filter, Finset.mem_product] at hp ⊢
      obtain ⟨⟨hi, hj⟩, hlt, hc⟩ := hp
      exact ⟨⟨hj, hi⟩, hlt, ((collides_comm _ _).mp hc)⟩
    · rintro ⟨i, j⟩ _
      rfl
    · rintro ⟨i, j⟩ _
      rfl
  rw [hswap, unordered_collision_count, two_mul]

/-! ## Claim theorems -/

/-- C1: `collision_test_cpu` counts exactly the ordered pairs of distinct
particles whose Euclidean distance is strictly below the sum of their radii
(`collides` is literally that square-root comparison); in particular two
particles of radius `1/2` at distance `9/10` collide (both ordered pairs are
counted) and at distance `11/10` do not. -/
theorem collision_test_cpu_flags_iff_distance_lt_radius_sum :
    (∀ instances : List (ComputeInstance ℚ),
      collision_test_cpu instances =
        (((Finset.range instances.length) ×ˢ
            (Finset.range instances.length)).filter
          (fun p => p.1 ≠ p.2 ∧
            collides (instances.getD p.1 default)
              (instances.getD p.2 default))).card)
    ∧ (∀ a b : ComputeInstance ℚ,
        collides a b ↔
          Real.sqrt (((a.position.sub b.position).lengthSq : ℚ) : ℝ) <
            ((a.radius + b.radius : ℚ) : ℝ))
    ∧ collision_test_cpu (demoPair (9/10)) = 2
    ∧ collision_test_cpu (demoPair (11/10)) = 0 := by
  refine ⟨collision_test_cpu_eq_card, fun a b => Iff.rfl, ?_, ?_⟩
  · have h1 : collides (⟨0, ⟨0, 0, 0⟩, 1/2, ⟨0, 0, 0⟩⟩ : ComputeInstance ℚ)
        ⟨1, ⟨9/10, 0, 0⟩, 1/2, ⟨0, 0, 0⟩⟩ := by
      rw [collides_iff_sq]
      norm_num [Vec3.sub, Vec3.lengthSq]
    rw [show demoPair (9/10) =
        [(⟨0, ⟨0, 0, 0⟩, 1/2, ⟨0, 0, 0⟩⟩ : ComputeInstance ℚ),
         ⟨1, ⟨9/10, 0, 0⟩, 1/2, ⟨0, 0, 0⟩⟩] from rfl,
      collision_test_cpu_pair, if_pos h1, if_pos ((collides_comm _ _).mp h1)]
  · have h1 : ¬ collides (⟨0, ⟨0, 0, 0⟩, 1/2, ⟨0, 0, 0⟩⟩ : ComputeInstance ℚ)
        ⟨1, ⟨11/10, 0, 0⟩, 1/2, ⟨0, 0, 0⟩⟩ := by
      rw [collides_iff_sq]
      rintro ⟨-, h⟩
      norm_num [Vec3.sub, Vec3.lengthSq] at h
    rw [show demoPair (11/10) =
        [(⟨0, ⟨0, 0, 0⟩, 1/2, ⟨0, 0, 0⟩⟩ : ComputeInstance ℚ),
         ⟨1, ⟨11/10, 0, 0⟩, 1/2, ⟨0, 0, 0⟩⟩] from rfl,
      collision_test_cpu_pair, if_neg h1,
      if_neg (fun hc => h1 ((collides_comm _ _).mp hc))]

/-- C9: the overlap predicate of `collision_test_cpu` is symmetric, so the
ordered-pair count it computes equals twice the number of unordered
colliding pairs and is always even. -/
theorem collides_symmetric_count_even :
    (∀ a b : ComputeInstance ℚ, collides a b ↔ collides b a)
    ∧ (∀ instances : List (ComputeInstance ℚ),
        collision_test_cpu instances = 2 * unordered_collision_count instances)
    ∧ ∀ instances : List (ComputeInstance ℚ),
        Even (collision_test_cpu instances) := by
  have h2 : ∀ instances : List (ComputeInstance ℚ),
      collision_test_cpu instances = 2 * unordered_collision_count instances := by
    intro instances
    rw [collision_test_cpu_eq_card, ordered_count_eq_two_mul_unordered]
  exact ⟨collides_comm, h2, fun instances => h2 instances ▸ even_two_mul _⟩

/-- C2: for every buffer length, `do_compute` on the node built by
`ComputeTestNode::new` records exactly one compute dispatch, and the only
pipeline ever set is the one with entry point `naive_collision_test` — so no
AssignCell, Sort or BuildGrid kernel is ever dispatched. -/
theorem do_compute_single_naive_collision_dispatch :
    ∀ buffer_len : ℕ,
      ((do_compute (ComputeTestNode.new buffer_len)).countP
          Command.isDispatchWorkgroups = 1)
      ∧ ((do_compute (ComputeTestNode.new buffer_len)).filterMap
          Command.pipelineOf = ["naive_collision_test"]) := by
  intro n
  exact ⟨rfl, rfl⟩

/-- C3 counterexample: the spec's field list for the packed device record
names a `cell_index` field, but `ComputeInstanceRaw` has no such field. -/
theorem packed_record_has_no_cell_index_field :
    "cell_index" ∈ specPackedRecordFields ∧
      "cell_index" ∉ ComputeInstanceRaw.fieldNames := by
  exact ⟨by decide, by decide⟩

/-- C3 (amended): the packed record's fields are id, radius, position and
velocity plus the three padding words that 16-byte-align the layout — there
is no `cell_index` field — and `to_raw` fills id, radius, position and
velocity from the host particle with every padding field zero. -/
theorem to_raw_fields_and_padding :
    ("cell_index" ∉ ComputeInstanceRaw.fieldNames)
    ∧ (ComputeInstanceRaw.fieldNames =
        ["id", "radius", "_padding_radius", "position", "_padding_position",
         "velocity", "_padding_velocity"])
    ∧ ∀ s : ComputeInstance ℚ,
        (s.to_raw.id = s.id ∧ s.to_raw.radius = s.radius ∧
          s.to_raw.position = s.position ∧ s.to_raw.velocity = s.velocity)
        ∧ (s.to_raw._padding_radius = (0, 0) ∧
            s.to_raw._padding_position = 0 ∧ s.to_raw._padding_velocity = 0) :=
  ⟨by decide, rfl, fun s => ⟨⟨rfl, rfl, rfl, rfl⟩, rfl, rfl, rfl⟩⟩

/-- C6 counterexample: at the concrete empty buffer, a failed map makes
`read_buffer_bytes` panic (the `expect` inside the `map_async` callback)
instead of returning an error to the caller. -/
theorem read_buffer_bytes_panics_on_map_failure :
    read_buffer_bytes [] MapResult.error =
      ReadOutcome.panicked "failed to map storage buffer" := rfl

/-- C6 (amended): when mapping the result buffer fails, `read_buffer_bytes`
panics with the `expect` message rather than returning an error value to the
caller; and it never returns partial data — a successful call returns the
full mapped contents unchanged, so host particle state is never overwritten
with partial data. -/
theorem read_buffer_bytes_failure_semantics :
    (∀ contents : List ℕ,
      read_buffer_bytes contents MapResult.error =
        ReadOutcome.panicked "failed to map storage buffer")
    ∧ ∀ (contents out : List ℕ),
        read_buffer_bytes contents MapResult.ok = ReadOutcome.ok out →
          out = contents := by
  refine ⟨fun contents => rfl, fun contents out h => ?_⟩
  injection h with h2
  exact h2.symm

/-- C7 counterexample: the bind group layout and the bind group built in
`ComputeTestNode::new` have six buffer bindings, not five. -/
theorem bind_group_not_five_bindings :
    bind_group_layout_entries.length ≠ 5 ∧ bind_group_entries.length ≠ 5 := by
  exact ⟨by decide, by decide⟩

/-- C7 (amended): the single kernel instance created by the pipeline binds
six buffers, not five: the layout and the bind group each contain six buffer
bindings at indices 0 through 5, one per owned buffer (time step, boundary,
instances, output count, output position, output velocity), all distinct. -/
theorem bind_group_six_distinct_buffers :
    bind_group_layout_entries.length = 6
    ∧ bind_group_entries.length = 6
    ∧ bind_group_layout_entries.map BindGroupLayoutEntry.binding =
        [0, 1, 2, 3, 4, 5]
    ∧ bind_group_entries.map BindGroupEntry.binding = [0, 1, 2, 3, 4, 5]
    ∧ bind_group_entries.map BindGroupEntry.buffer =
        [.time_step, .boundary, .instances, .output_cnt, .output_position,
         .output_velocity]
    ∧ (bind_group_entries.map BindGroupEntry.buffer).Nodup :=
  ⟨rfl, rfl, rfl, rfl, rfl, by decide⟩

/-- `collect_words` succeeds elementwise: if every iteration yields a value,
the loop returns the mapped list. -/
lemma collect_words_eq_map (f : ℕ → Option ℕ) (g : ℕ → ℕ) :
    ∀ l : List ℕ, (∀ x ∈ l, f x = some (g x)) →
      collect_words f l = some (l.map g) := by
  intro l
  induction l with
  | nil => intro _; rfl
  | cons a rest ih =>
    intro h
    have ha := h a (List.mem_cons_self a rest)
    have hrest := ih (fun x hx => h x (List.mem_cons_of_mem a hx))
    simp only [collect_words, ha, hrest, List.map_cons]

/-- `collect_words` over a mapped index list reindexes the loop body. -/
lemma collect_words_map (f : ℕ → Option ℕ) (g : ℕ → ℕ) :
    ∀ l : List ℕ, collect_words f (l.map g) =
      collect_words (fun x => f (g x)) l := by
  intro l
  induction l with
  | nil => rfl
  | cons a rest ih => simp only [List.map_cons, collect_words, ih]

/-- `collect_words` only depends on the loop body's values on the list. -/
lemma collect_words_congr {f g : ℕ → Option ℕ} :
    ∀ l : List ℕ, (∀ x ∈ l, f x = g x) →
      collect_words f l = collect_words g l := by
  intro l
  induction l with
  | nil => intro _; rfl
  | cons a rest ih =>
    intro h
    have ha := h a (List.mem_cons_self a rest)
    have hrest := ih (fun x hx => h x (List.mem_cons_of_mem a hx))
    simp only [collect_words, ha, hrest]

/-- On a 4-byte slice the `try_into`-backed conversion always succeeds and
returns the little-endian value. -/
lemma u32_from_ne_bytes_length_four (b : List ℕ) (h : b.length = 4) :
    u32_from_ne_bytes b = some (le32_value b) := by
  rcases b with _ | ⟨b0, b⟩
  · simp at h
  rcases b with _ | ⟨b1, b⟩
  · simp at h
  rcases b with _ | ⟨b2, b⟩
  · simp at h
  rcases b with _ | ⟨b3, b⟩
  · simp at h
  rcases b with _ | ⟨b4, b⟩
  · rfl
  · simp at h

/-- Each iteration of `bytes_to_u32`/`bytes_to_f32` succeeds: the slice is in
range and has exactly 4 bytes. -/
lemma slice_word_succeeds (bytes : List ℕ) (i : ℕ)
    (hi : i < bytes.length / 4) :
    (slice4 bytes (i * 4)).bind u32_from_ne_bytes =
      some (le32_value ((bytes.drop (i * 4)).take 4)) := by
  have hle : i * 4 + 4 ≤ bytes.length := by
    have h1 : (i + 1) * 4 ≤ (bytes.length / 4) * 4 := Nat.mul_le_mul_right 4 hi
    have h2 : (bytes.length / 4) * 4 ≤ bytes.length := Nat.div_mul_le_self _ 4
    omega
  rw [slice4, if_pos hle]
  have hlen : ((bytes.drop (i * 4)).take 4).length = 4 := by
    rw [List.length_take, List.length_drop]
    omega
  exact u32_from_ne_bytes_length_four _ hlen

/-- C10: on every byte list both conversion loops succeed (the slice-to-array
conversion never fails, so the Rust `unwrap` never panics) and return exactly
`length / 4` values, value `i` being the native-endian reinterpretation of
bytes `4i..4i+4`; trailing bytes beyond the last full word are discarded by
the `length / 4` loop bound. -/
theorem bytes_to_u32_f32_never_panic_exact :
    ∀ bytes : List ℕ,
      (bytes_to_u32 bytes =
        some ((List.range (bytes.length / 4)).map (fun i =>
          le32_value ((bytes.drop (i * 4)).take 4))))
      ∧ (bytes_to_f32 bytes =
        some ((List.range (bytes.length / 4)).map (fun i =>
          le32_value ((bytes.drop (i * 4)).take 4))))
      ∧ ((bytes_to_u32 bytes).getD []).length = bytes.length / 4
      ∧ ((bytes_to_f32 bytes).getD []).length = bytes.length / 4 := by
  intro bytes
  have key : ∀ i ∈ List.range (bytes.length / 4),
      (slice4 bytes (i * 4)).bind u32_from_ne_bytes =
        some (le32_value ((bytes.drop (i * 4)).take 4)) := by
    intro i hi
    exact slice_word_succeeds bytes i (List.mem_range.mp hi)
  have hu : bytes_to_u32 bytes =
      some ((List.range (bytes.length / 4)).map (fun i =>
        le32_value ((bytes.drop (i * 4)).take 4))) :=
    collect_words_eq_map _ _ _ key
  have hf : bytes_to_f32 bytes =
      some ((List.range (bytes.length / 4)).map (fun i =>
        le32_value ((bytes.drop (i * 4)).take 4))) :=
    collect_words_eq_map _ _ _ key
  refine ⟨hu, hf, ?_, ?_⟩
  · rw [hu]
    simp
  · rw [hf]
    simp

/-- Serializing a `u32` to its four native-endian bytes and reinterpreting
them recovers the word. -/
lemma u32_bytes_round_trip (w : ℕ) (h : w < 4294967296) :
    u32_from_ne_bytes (u32_to_ne_bytes w) = some w := by
  simp only [u32_to_ne_bytes, u32_from_ne_bytes]
  congr 1
  omega

/-- Slicing four bytes past a 4-byte prefix slices the suffix. -/
lemma slice4_append_four (b4 rest : List ℕ) (h : b4.length = 4) (s : ℕ) :
    slice4 (b4 ++ rest) (s + 4) = slice4 rest s := by
  unfold slice4
  rw [List.length_append, h]
  have hdrop : (b4 ++ rest).drop (s + 4) = rest.drop s := by
    have hd := @List.drop_append _ b4 rest s
    rw [h] at hd
    rw [Nat.add_comm s 4]
    exact hd
  by_cases hs : s + 4 ≤ rest.length
  · rw [if_pos (by omega), if_pos hs, hdrop]
  · rw [if_neg (by omega), if_neg hs]

/-- Reading back the byte image of a word list through `bytes_to_f32`
recovers the words, provided each word is in `u32` range. -/
lemma bytes_to_f32_words : ∀ ws : List ℕ, (∀ w ∈ ws, w < 4294967296) →
    bytes_to_f32 (words_to_bytes ws) = some ws := by
  intro ws
  induction ws with
  | nil => intro _; rfl
  | cons w ws ih =>
    intro h
    have hw := h w (List.mem_cons_self w ws)
    have hws := ih (fun x hx => h x (List.mem_cons_of_mem w hx))
    have hb4 : (u32_to_ne_bytes w).length = 4 := rfl
    rw [words_to_bytes, List.flatMap_cons]
    rw [bytes_to_f32]
    have hlen : (u32_to_ne_bytes w ++ ws.flatMap u32_to_ne_bytes).length / 4 =
        (ws.flatMap u32_to_ne_bytes).length / 4 + 1 := by
      rw [List.length_append, hb4, Nat.add_comm 4, Nat.add_div_right]
      norm_num
    rw [hlen, List.range_succ_eq_map]
    simp only [collect_words, collect_words_map]
    have hzero : (slice4 (u32_to_ne_bytes w ++ ws.flatMap u32_to_ne_bytes)
        (0 * 4)).bind f32_from_ne_bytes = some w := by
      rw [show (0 * 4 : ℕ) = 0 from rfl, slice4,
        if_pos (by rw [List.length_append, hb4]; omega)]
      rw [List.drop_zero, show (4 : ℕ) = (u32_to_ne_bytes w).length from rfl,
        List.take_left]
      exact u32_bytes_round_trip w hw
    have hrest : collect_words (fun x =>
        (slice4 (u32_to_ne_bytes w ++ ws.flatMap u32_to_ne_bytes)
          (Nat.succ x * 4)).bind f32_from_ne_bytes)
        (List.range ((ws.flatMap u32_to_ne_bytes).length / 4)) = some ws := by
      rw [collect_words_congr _ (fun x _ => by
        rw [Nat.succ_mul, slice4_append_four _ _ hb4])]
      rw [← bytes_to_f32, ← words_to_bytes]
      exact hws
    rw [hzero, hrest]

/-- Skipping four leading entries shifts `getD` by four. -/
lemma getD_cons_four (x0 x1 x2 x3 : ℕ) (l : List ℕ) (k : ℕ) :
    (x0 :: x1 :: x2 :: x3 :: l).getD (k + 4) 0 = l.getD k 0 := by
  rw [show k + 4 = (k + 3) + 1 from by omega, List.getD_cons_succ,
    show k + 3 = (k + 2) + 1 from by omega, List.getD_cons_succ,
    show k + 2 = (k + 1) + 1 from by omega, List.getD_cons_succ,
    List.getD_cons_succ]

/-- The grouping loop of `read_position_buffer` consumes four words at a
time, keeping the first three. -/
lemma group_vec3_cons (a b c d : ℕ) (rest : List ℕ) :
    group_vec3 (a :: b :: c :: d :: rest) = ⟨a, b, c⟩ :: group_vec3 rest := by
  unfold group_vec3
  have hlen : (a :: b :: c :: d :: rest).length = rest.length + 4 := by
    simp only [List.length_cons]
  rw [hlen, Nat.add_div_right _ (by norm_num), List.range_succ_eq_map,
    List.map_cons, List.map_map]
  congr 1
  apply List.map_congr_left
  intro i _
  simp only [Function.comp]
  rw [Nat.succ_mul]
  rw [show i * 4 + 4 + 1 = (i * 4 + 1) + 4 from by omega,
    show i * 4 + 4 + 2 = (i * 4 + 2) + 4 from by omega]
  rw [getD_cons_four]
  rw [getD_cons_four]
  rw [getD_cons_four]

/-- Grouping the flattened per-particle position quadruples recovers the
position of each particle. -/
lemma group_vec3_position_words :
    ∀ particles : List (ComputeInstance ℕ),
      group_vec3 (particles.flatMap (fun p =>
        [p.position.x, p.position.y, p.position.z, 0])) =
        particles.map (fun p => p.position) := by
  intro particles
  induction particles with
  | nil => rfl
  | cons p rest ih =>
    rw [List.flatMap_cons, List.map_cons, ← ih]
    rw [show [p.position.x, p.position.y, p.position.z, 0] ++
        rest.flatMap (fun q => [q.position.x, q.position.y, q.position.z, 0]) =
        p.position.x :: p.position.y :: p.position.z :: 0 ::
        rest.flatMap (fun q => [q.position.x, q.position.y, q.position.z, 0])
      from rfl]
    rw [group_vec3_cons]

/-- C5: in the bit-pattern model, serializing a particle with `to_raw` and
deserializing the resulting bytes through the readback path (`bytes_to_f32`,
then grouping four floats into a `Vec3`) recovers the original position
bit-for-bit (it is the second group; id, radius and velocity words are also
recovered); over the spec-modelled `dt = 0` kernel output the whole readback
returns every particle's original position; in particular the particle at
position `(1.0, 2.0, 3.0)` with zero velocity reads back those exact bit
patterns. -/
theorem position_round_trip_bit_exact :
    (∀ p : ComputeInstance ℕ, p.bitsValid →
      read_position_buffer (words_to_bytes p.to_raw.words) =
        some [⟨p.id, p.radius, 0⟩, p.position, p.velocity])
    ∧ (∀ particles : List (ComputeInstance ℕ),
        (∀ p ∈ particles, p.bitsValid) →
        read_position_buffer (words_to_bytes (device_output_position_dt0
            (particles.map ComputeInstance.to_raw))) =
          some (particles.map (fun p => p.position)))
    ∧ read_position_buffer (words_to_bytes (device_output_position_dt0
        ([demoBitsParticle].map ComputeInstance.to_raw))) =
        some [⟨1065353216, 1073741824, 1077936128⟩] := by
  refine ⟨?_, ?_, ?_⟩
  · intro p hv
    obtain ⟨h1, h2, h3, h4, h5, h6, h7, h8⟩ := hv
    have hws : ∀ w ∈ ComputeInstanceRaw.words p.to_raw, w < 4294967296 := by
      intro w hw
      simp only [ComputeInstance.to_raw, ComputeInstanceRaw.words,
        List.mem_cons, List.not_mem_nil, or_false] at hw
      rcases hw with rfl | rfl | rfl | rfl | rfl | rfl | rfl | rfl | rfl |
        rfl | rfl | rfl <;> omega
    rw [read_position_buffer, bytes_to_f32_words _ hws, Option.map_some']
    show some (group_vec3 (p.id :: p.radius :: 0 :: 0 ::
      p.position.x :: p.position.y :: p.position.z :: 0 ::
      p.velocity.x :: p.velocity.y :: p.velocity.z :: 0 :: [])) = _
    rw [group_vec3_cons, group_vec3_cons, group_vec3_cons]
    rfl
  · intro particles hv
    have hwords : device_output_position_dt0
        (particles.map ComputeInstance.to_raw) =
        particles.flatMap (fun p =>
          [p.position.x, p.position.y, p.position.z, 0]) := by
      rw [device_output_position_dt0, List.flatMap_map]
      rfl
    have hbounds : ∀ w ∈ particles.flatMap (fun p =>
        [p.position.x, p.position.y, p.position.z, 0]), w < 4294967296 := by
      intro w hw
      rw [List.mem_flatMap] at hw
      obtain ⟨p, hp, hw⟩ := hw
      obtain ⟨-, -, h3, h4, h5, -⟩ := hv p hp
      simp only [List.mem_cons, List.not_mem_nil, or_false] at hw
      rcases hw with rfl | rfl | rfl | rfl <;> omega
    rw [read_position_buffer, hwords, bytes_to_f32_words _ hbounds,
      Option.map_some', group_vec3_position_words]
  · rfl

/-- Entry `i` of the overwrite step: the old particle with position and
velocity replaced from the readback vectors. -/
lemma overwrite_from_readback_getD (instances : List (ComputeInstance ℚ))
    (ps vs : List (Vec3 ℚ)) (i : ℕ) (h : i < instances.length) :
    (overwrite_from_readback instances ps vs).getD i default =
      { instances.getD i default with
        position := ps.getD i ((instances.getD i default).position)
        velocity := vs.getD i ((instances.getD i default).velocity) } := by
  unfold overwrite_from_readback
  rw [List.getD_eq_getElem _ _ (by simpa using h), List.getElem_map,
    List.getElem_range]

/-- C4: the per-frame update round trip (spec §4.4, modelled from the spec
with the device kernel as a parameter) preserves the particle array's length
and every particle's id and radius, whatever the device returns; and the
overwrite step replaces exactly the position and velocity fields with the
readback values. -/
theorem update_round_trip_preserves_length_id_radius :
    (∀ (device : List (ComputeInstanceRaw ℚ) → List (Vec3 ℚ) × List (Vec3 ℚ))
        (instances : List (ComputeInstance ℚ)),
        (update_round_trip device instances).length = instances.length)
    ∧ (∀ (device : List (ComputeInstanceRaw ℚ) →
          List (Vec3 ℚ) × List (Vec3 ℚ))
        (instances : List (ComputeInstance ℚ)) (i : ℕ), i < instances.length →
        ((update_round_trip device instances).getD i default).id =
            (instances.getD i default).id ∧
          ((update_round_trip device instances).getD i default).radius =
            (instances.getD i default).radius)
    ∧ (∀ (instances : List (ComputeInstance ℚ)) (ps vs : List (Vec3 ℚ))
        (i : ℕ), i < instances.length →
        ((overwrite_from_readback instances ps vs).getD i default).position =
            ps.getD i ((instances.getD i default).position) ∧
          ((overwrite_from_readback instances ps vs).getD i default).velocity =
            vs.getD i ((instances.getD i default).velocity)) := by
  refine ⟨?_, ?_, ?_⟩
  · intro device instances
    unfold update_round_trip overwrite_from_readback
    simp
  · intro device instances i h
    unfold update_round_trip
    rw [overwrite_from_readback_getD _ _ _ _ h]
    exact ⟨rfl, rfl⟩
  · intro instances ps vs i h
    rw [overwrite_from_readback_getD _ _ _ _ h]
    exact ⟨rfl, rfl⟩

/-- C8: the host-side computation is deterministic — `to_raw` serialization,
the collision test and readback deserialization are functions of their
inputs, and two runs of the (spec-modelled) pipeline from identical initial
state and identical dt sequences, against the same device kernel, produce
identical particle arrays. -/
theorem host_pipeline_deterministic :
    (∀ s t : List (ComputeInstance ℚ), s = t →
        s.map ComputeInstance.to_raw = t.map ComputeInstance.to_raw)
    ∧ (∀ s t : List (ComputeInstance ℚ), s = t →
        collision_test_cpu s = collision_test_cpu t)
    ∧ (∀ b b' : List ℕ, b = b' →
        read_position_buffer b = read_position_buffer b')
    ∧ ∀ (device : ℚ → List (ComputeInstanceRaw ℚ) →
          List (Vec3 ℚ) × List (Vec3 ℚ))
        (init init' : List (ComputeInstance ℚ)) (dts dts' : List ℚ),
        init = init' → dts = dts' →
          pipeline_run device init dts = pipeline_run device init' dts' := by
  refine ⟨?_, ?_, ?_, ?_⟩ <;> intros <;> subst_vars <;> rfl
